import Mathlib

/-!
Verification of the flagfx constructor-splitting engine (package flagfx).

The embedding models the core of the package: `Provide` rewrites each
registered constructor into a Capture-stage wrapper (`fn1`), a shared
`entry`, and a Release-stage wrapper (`fn2`); the barrier function `parse`
invokes every entry's original constructor with its captured arguments,
runs `fs.Parse(args)` at most once, and returns the `parsed` map consumed
by the Release stages.

Values carried through the graph (`reflect.Value`) are modelled by a type
parameter `V`.  Pointer identity of a `*entry` is modelled by a natural
number id, allocated in registration order.  Mutation of `e.args` by the
Capture stage is modelled by state passing: the Capture stage builds the
entry carrying the captured argument list.  Executions are instrumented
with an explicit event trace so that "runs exactly once", "only inside the
barrier" and "the action runs at most once" become statements about traces.
-/

namespace Flagfx

/-- Model of `reflect.Type` as used by the package: the two distinguished
types `resultType` (the group-tagged `result` struct) and `parsedPtrType`
(`*parsed`), plus arbitrary user types. -/
inductive Ty where
  | resultTy
  | parsedPtrTy
  | named (s : String)
deriving DecidableEq

/-- The reflected signature of a Go function: input types, output types and
the variadic bit, as produced by `reflect.FuncOf(in, out, variadic)`. -/
structure FnSig where
  ins : List Ty
  outs : List Ty
  variadic : Bool
deriving DecidableEq

/-- A Go constructor function as introspected by `Provide`: its input types
(`ft.In(i)`), output types (`ft.Out(i)`), variadic bit (`ft.IsVariadic()`),
and its body, modelled as a function from the received argument values to
the returned values. -/
structure Ctor (V : Type) where
  inTys : List Ty
  outTys : List Ty
  variadic : Bool
  body : List V → List V

/-- The signature of the original constructor. -/
def Ctor.sig {V : Type} (c : Ctor V) : FnSig :=
  ⟨c.inTys, c.outTys, c.variadic⟩

/-- Signature of the synthesized Capture-stage function `fn1`:
`reflect.FuncOf(in, resultTypes, false)` — the original input types, the
single group-tagged `result` output, and variadic hard-coded to `false`. -/
def fn1Sig {V : Type} (c : Ctor V) : FnSig :=
  ⟨c.inTys, [Ty.resultTy], false⟩

/-- Modelled from the spec: the Capture-stage signature as §4.1 describes
it — "the same input signature as the original constructor (including for
variadic constructors) and a single output".  Used only to compare the
spec's wording with the synthesized `fn1Sig`. -/
def fn1SigSpec {V : Type} (c : Ctor V) : FnSig :=
  ⟨c.inTys, [Ty.resultTy], c.variadic⟩

/-- Signature of the synthesized Release-stage function `fn2`:
`reflect.FuncOf(parsedPtrTypes, out, false)`. -/
def fn2Sig {V : Type} (c : Ctor V) : FnSig :=
  ⟨[Ty.parsedPtrTy], c.outTys, false⟩

/-- The `entry` struct after its Capture stage has run: the identity of the
`*entry` pointer (`id`, allocated in registration order), the original
constructor (`fn`), and the captured dependency values (`args`). -/
structure Entry (V : Type) where
  id : Nat
  fn : Ctor V
  args : List V

/-- One registration as the host fx graph sees it: a constructor passed to
`Provide` together with the dependency values fx supplies to its
Capture-stage wrapper. -/
structure Reg (V : Type) where
  ctor : Ctor V
  deps : List V

/-- The `*flag.FlagSet` collaborator, at the interface `parse` uses:
`fs.Parsed()` is `parsedFlag`, and `fs.Parse(args)` returns
`parseRes args` (`none` on success, `some msg` for an error). -/
structure FlagSet where
  parsedFlag : Bool
  parseRes : List String → Option String

/-- The `Arguments` payload (`[]string`). -/
abbrev Arguments := List String

/-- The `parsed` struct: a map from entry identity to the list of values
returned by that entry's constructor, modelled as an association list. -/
structure Parsed (V : Type) where
  entries : List (Nat × List V)

/-- Go map lookup `parsed.entries[e]` keyed by entry identity. -/
def Parsed.lookup {V : Type} (p : Parsed V) (i : Nat) : Option (List V) :=
  List.lookup i p.entries

/-- Observable events of one resolution pass: a Capture stage storing its
arguments, the barrier calling an original constructor body with the
captured arguments, the barrier running `fs.Parse`, and a Release stage
returning values to its dependents. -/
inductive Event (V : Type) where
  | captureEv (i : Nat) (args : List V)
  | callCtorEv (i : Nat) (args : List V)
  | parseActionEv
  | releaseEv (i : Nat) (vals : List V)
deriving DecidableEq

/-- The Capture-stage closure `fn1` for the entry with identity `i`: it
stores the received arguments into the entry's `args` slot and returns the
entry (wrapped in the group-tagged `result`); the second component is the
trace it emits — it performs no other computation. -/
def fn1run {V : Type} (i : Nat) (c : Ctor V) (args : List V) :
    Entry V × List (Event V) :=
  (⟨i, c, args⟩, [Event.captureEv i args])

/-- The loop body of `parse` that calls each entry's constructor:
`parsed.entries[e] = e.fn.Call(e.args)`, as an association list in entry
order. -/
def runEntries {V : Type} (es : List (Entry V)) : List (Nat × List V) :=
  es.map fun e => (e.id, e.fn.body e.args)

/-- The trace of constructor calls the `parse` loop emits, one per entry. -/
def callTrace {V : Type} (es : List (Entry V)) : List (Event V) :=
  es.map fun e => Event.callCtorEv e.id e.args

/-- The barrier function `parse(fs, args, p)`: call every entry's original
constructor with its captured arguments, storing the results keyed by
entry; then, unless `fs.Parsed()`, run `fs.Parse(args)` once, failing the
whole barrier on error; on success return the populated `parsed` map.
Returns the emitted event trace alongside the result. -/
def parse {V : Type} (fs : FlagSet) (args : Arguments) (p : List (Entry V)) :
    List (Event V) × Except String (Parsed V) :=
  if fs.parsedFlag then
    (callTrace p, Except.ok ⟨runEntries p⟩)
  else
    match fs.parseRes args with
    | some err => (callTrace p ++ [Event.parseActionEv], Except.error err)
    | none => (callTrace p ++ [Event.parseActionEv], Except.ok ⟨runEntries p⟩)

/-- A `reflect.Value` argument handed to the Release-stage closure: either
the `*parsed` handle or a value of some other type. -/
inductive RVal (V : Type) where
  | parsedVal (p : Parsed V)
  | otherVal (v : V)

/-- The Release-stage closure `fn2` for the entry with identity `i`, as
written in the source: panic (`none`) if it does not receive exactly one
argument, panic if the argument is not a `*parsed`, and otherwise return
`parsed.entries[e]` — the Go map lookup, which yields the zero value (an
empty list of values) when the entry is absent. -/
def fn2closure {V : Type} (i : Nat) (args : List (RVal V)) :
    Option (List V) :=
  match args with
  | [a] =>
      match a with
      | RVal.parsedVal p => some ((p.lookup i).getD [])
      | RVal.otherVal _ => none
  | _ => none

/-- The synthesized Release-stage function as callers observe it: the
closure's results are handed back through `reflect.MakeFunc`, which panics
(`none`) when the number of returned values does not match the declared
output types `out` of the original constructor. -/
def fn2call {V : Type} (c : Ctor V) (i : Nat) (args : List (RVal V)) :
    Option (List V) :=
  match fn2closure i args with
  | none => none
  | some rs => if rs.length = c.outTys.length then some rs else none

/-- The Capture phase of a resolution pass: run `fn1` for each registration
in order, allocating entry identities from `n`, and collect the entries the
group receives. -/
def captureEntriesFrom {V : Type} (n : Nat) : List (Reg V) → List (Entry V)
  | [] => []
  | r :: rs => (fn1run n r.ctor r.deps).1 :: captureEntriesFrom (n + 1) rs

/-- The trace emitted by the Capture phase, entry identities from `n`. -/
def captureTraceFrom {V : Type} (n : Nat) : List (Reg V) → List (Event V)
  | [] => []
  | r :: rs => (fn1run n r.ctor r.deps).2 ++ captureTraceFrom (n + 1) rs

/-- The entries collected by the `flagfx_entries` group for a registration
list. -/
def captureEntries {V : Type} (regs : List (Reg V)) : List (Entry V) :=
  captureEntriesFrom 0 regs

/-- The Capture phase trace for a registration list. -/
def captureTrace {V : Type} (regs : List (Reg V)) : List (Event V) :=
  captureTraceFrom 0 regs

/-- The Release phase outputs: for each entry, what its `fn2` returns when
handed the shared `*parsed` (`none` marks a panic). -/
def releaseOutputs {V : Type} (regs : List (Reg V)) (p : Parsed V) :
    List (Option (List V)) :=
  (captureEntries regs).map fun e => fn2call e.fn e.id [RVal.parsedVal p]

/-- The Release phase trace: one `releaseEv` per entry whose `fn2` returns
values to its dependents. -/
def releaseTrace {V : Type} (regs : List (Reg V)) (p : Parsed V) :
    List (Event V) :=
  (captureEntries regs).filterMap fun e =>
    (fn2call e.fn e.id [RVal.parsedVal p]).map fun vs => Event.releaseEv e.id vs

/-- One whole resolution pass over successfully provided constructors, as
fx schedules it: Capture phase for every registration, then the barrier
`parse`, then — only if the barrier succeeded — the Release phase.
Returns the full event trace and either the barrier's error or the list of
Release-stage outputs, in registration order. -/
def resolve {V : Type} (fs : FlagSet) (args : Arguments) (regs : List (Reg V)) :
    List (Event V) × Except String (List (Option (List V))) :=
  match parse fs args (captureEntries regs) with
  | (ptrace, Except.error e) => (captureTrace regs ++ ptrace, Except.error e)
  | (ptrace, Except.ok p) =>
      (captureTrace regs ++ ptrace ++ releaseTrace regs p,
       Except.ok (releaseOutputs regs p))

/-- The event trace of one resolution pass. -/
def resolveTrace {V : Type} (fs : FlagSet) (args : Arguments)
    (regs : List (Reg V)) : List (Event V) :=
  (resolve fs args regs).1

/-- The outcome of one resolution pass. -/
def resolveResult {V : Type} (fs : FlagSet) (args : Arguments)
    (regs : List (Reg V)) : Except String (List (Option (List V))) :=
  (resolve fs args regs).2

/-- The trace emitted by the barrier within one resolution pass. -/
def parseTraceOf {V : Type} (fs : FlagSet) (args : Arguments)
    (regs : List (Reg V)) : List (Event V) :=
  (parse fs args (captureEntries regs)).1

/-- What the Release stage of registration `i` delivers in one resolution
pass: `none` when the barrier failed, otherwise the output slot for `i`. -/
def resolveOutput {V : Type} (fs : FlagSet) (args : Arguments)
    (regs : List (Reg V)) (i : Nat) : Option (Option (List V)) :=
  match resolveResult fs args regs with
  | Except.error _ => none
  | Except.ok outs => outs.get? i

/-- A value passed to `Provide`: either a function (reflect kind
`reflect.Func`) or a non-function value of some other kind. -/
inductive AnyVal (V : Type) where
  | func (c : Ctor V)
  | nonFunc (v : V)

/-- An element of the `opts` slice `Provide` builds: either
`fx.Error(errors.New(...))` or the `fx.Provide(fn1, fn2)` pair synthesized
for the entry with identity `i` splitting constructor `c`. -/
inductive FxOpt (V : Type) where
  | fxError (msg : String)
  | fxProvide (i : Nat) (c : Ctor V)

/-- The error message `Provide` reports for a non-function value. -/
def provideErrMsg : String := "flagfx: Provide must be used with functions"

/-- The loop body of `Provide`, with entry identities allocated from `n`:
for each function constructor append the synthesized `fx.Provide(fn1, fn2)`
option; on the first non-function value append `fx.Error(...)` and `break`
out of the loop, dropping the remaining constructors. -/
def provideLoop {V : Type} (n : Nat) : List (AnyVal V) → List (FxOpt V)
  | [] => []
  | AnyVal.func c :: rest => FxOpt.fxProvide n c :: provideLoop (n + 1) rest
  | AnyVal.nonFunc _ :: _ => [FxOpt.fxError provideErrMsg]

/-- `Provide(constructors...)`: the list of fx options it returns. -/
def Provide {V : Type} (cs : List (AnyVal V)) : List (FxOpt V) :=
  provideLoop 0 cs

/-! ### Concrete instances used as witnesses and counterexamples -/

/-- A flag set that has not been parsed and whose `Parse` succeeds. -/
def natFlagSet : FlagSet := ⟨false, fun _ => none⟩

/-- A flag set that already reports `Parsed() == true`. -/
def natFlagSetParsed : FlagSet := ⟨true, fun _ => none⟩

/-- A flag set whose `Parse` fails on every payload. -/
def natFlagSetErr : FlagSet := ⟨false, fun _ => some "flag provided but not defined"⟩

/-- A concrete payload. -/
def natArgs : Arguments := ["-x"]

/-- A constructor taking one dependency and echoing it back. -/
def regA : Reg Nat := ⟨⟨[Ty.named "FlagSetTy"], [Ty.named "FlagsA"], false, fun a => a⟩, [7]⟩

/-- A dependency-free constructor returning the value 3. -/
def regB : Reg Nat := ⟨⟨[], [Ty.named "FlagsB"], false, fun _ => [3]⟩, []⟩

/-- A variadic constructor, as `reflect` reports it: the last input type is
the slice type and `IsVariadic()` is true. -/
def variadicCtor : Ctor Nat := ⟨[Ty.named "IntSlice"], [Ty.named "T"], true, fun a => a⟩

/-- A constructor with no outputs. -/
def zeroOutCtor : Ctor Nat := ⟨[], [], false, fun _ => []⟩

/-- A constructor with one output. -/
def oneOutCtor : Ctor Nat := ⟨[], [Ty.named "T"], false, fun _ => [1]⟩

/-- A `parsed` map containing no entries. -/
def emptyParsed : Parsed Nat := ⟨[]⟩

/-! ### Structural lemmas about the Capture phase -/

lemma captureEntriesFrom_get? {V : Type} (regs : List (Reg V)) :
    ∀ (n k : Nat) (r : Reg V), regs.get? k = some r →
      (captureEntriesFrom n regs).get? k = some ⟨n + k, r.ctor, r.deps⟩ := by
  induction regs with
  | nil => intro n k r h; simp at h
  | cons r0 rs ih =>
      intro n k r h
      cases k with
      | zero =>
          simp only [List.get?] at h
          cases h
          rfl
      | succ k =>
          have hk : rs.get? k = some r := h
          have harith : n + (k + 1) = (n + 1) + k := by omega
          simpa [captureEntriesFrom, harith] using ih (n + 1) k r hk

lemma mem_captureTraceFrom {V : Type} (regs : List (Reg V)) :
    ∀ (n : Nat) (ev : Event V), ev ∈ captureTraceFrom n regs →
      ∃ k r, regs.get? k = some r ∧ ev = Event.captureEv (n + k) r.deps := by
  induction regs with
  | nil => intro n ev h; simp [captureTraceFrom] at h
  | cons r0 rs ih =>
      intro n ev h
      simp only [captureTraceFrom, fn1run, List.mem_append, List.mem_singleton] at h
      rcases h with h | h
      · exact ⟨0, r0, rfl, by simpa using h⟩
      · obtain ⟨k, r, hk, hev⟩ := ih (n + 1) ev h
        have harith : (n + 1) + k = n + (k + 1) := by omega
        exact ⟨k + 1, r, hk, by simpa [harith] using hev⟩

lemma mem_callTrace_captureEntriesFrom {V : Type} (regs : List (Reg V)) :
    ∀ (n : Nat) (ev : Event V), ev ∈ callTrace (captureEntriesFrom n regs) →
      ∃ k r, regs.get? k = some r ∧ ev = Event.callCtorEv (n + k) r.deps := by
  induction regs with
  | nil => intro n ev h; simp [captureEntriesFrom, callTrace] at h
  | cons r0 rs ih =>
      intro n ev h
      simp only [captureEntriesFrom, fn1run, callTrace, List.map_cons,
        List.mem_cons] at h
      rcases h with h | h
      · exact ⟨0, r0, rfl, by simpa using h⟩
      · obtain ⟨k, r, hk, hev⟩ := ih (n + 1) ev h
        have harith : (n + 1) + k = n + (k + 1) := by omega
        exact ⟨k + 1, r, hk, by simpa [harith] using hev⟩

lemma callTrace_mem {V : Type} (regs : List (Reg V)) :
    ∀ (n k : Nat) (r : Reg V), regs.get? k = some r →
      Event.callCtorEv (n + k) r.deps ∈ callTrace (captureEntriesFrom n regs) := by
  induction regs with
  | nil => intro n k r h; simp at h
  | cons r0 rs ih =>
      intro n k r h
      cases k with
      | zero =>
          simp only [List.get?] at h
          cases h
          simp [captureEntriesFrom, callTrace, fn1run]
      | succ k =>
          have hk : rs.get? k = some r := h
          have harith : n + (k + 1) = (n + 1) + k := by omega
          have hmem := ih (n + 1) k r hk
          rw [harith]
          show Event.callCtorEv ((n + 1) + k) r.deps ∈
            Event.callCtorEv n r0.deps :: callTrace (captureEntriesFrom (n + 1) rs)
          exact List.mem_cons_of_mem _ hmem

lemma callTrace_count_one {V : Type} [DecidableEq V] (regs : List (Reg V)) :
    ∀ (n k : Nat) (r : Reg V), regs.get? k = some r →
      (callTrace (captureEntriesFrom n regs)).count
        (Event.callCtorEv (n + k) r.deps) = 1 := by
  induction regs with
  | nil => intro n k r h; simp at h
  | cons r0 rs ih =>
      intro n k r h
      cases k with
      | zero =>
          simp only [List.get?] at h
          cases h
          have htail :
              (callTrace (captureEntriesFrom (n + 1) rs)).count
                (Event.callCtorEv (n + 0) r0.deps) = 0 := by
            refine List.count_eq_zero.mpr fun hmem => ?_
            obtain ⟨k', r', _, hev⟩ := mem_callTrace_captureEntriesFrom rs (n + 1) _ hmem
            have : n + 0 = (n + 1) + k' := by
              injection hev with h1 h2
            omega
          simp only [captureEntriesFrom, callTrace, fn1run, List.map_cons,
            Nat.add_zero] at htail ⊢
          rw [List.count_cons_self]
          omega
      | succ k =>
          have hk : rs.get? k = some r := h
          have hne : Event.callCtorEv (n + (k + 1)) r.deps ≠
              Event.callCtorEv n r0.deps := by
            intro hcontra
            injection hcontra with h1 h2
            omega
          have harith : n + (k + 1) = (n + 1) + k := by omega
          simp only [captureEntriesFrom, callTrace, fn1run, List.map_cons]
          rw [List.count_cons_of_ne hne]
          simpa [harith] using ih (n + 1) k r hk

lemma lookup_runEntries {V : Type} (regs : List (Reg V)) :
    ∀ (n k : Nat) (r : Reg V), regs.get? k = some r →
      List.lookup (n + k) (runEntries (captureEntriesFrom n regs)) =
        some (r.ctor.body r.deps) := by
  induction regs with
  | nil => intro n k r h; simp at h
  | cons r0 rs ih =>
      intro n k r h
      cases k with
      | zero =>
          simp only [List.get?] at h
          cases h
          simp [captureEntriesFrom, runEntries, fn1run, List.lookup]
      | succ k =>
          have hk : rs.get? k = some r := h
          have hne : (n + (k + 1) == n) = false := by
            refine beq_eq_false_iff_ne.mpr ?_
            omega
          have harith : n + (k + 1) = (n + 1) + k := by omega
          simp only [captureEntriesFrom, runEntries, fn1run, List.map_cons,
            List.lookup, hne]
          simpa [harith] using ih (n + 1) k r hk

lemma mem_releaseTrace {V : Type} (regs : List (Reg V)) (p : Parsed V)
    (ev : Event V) (h : ev ∈ releaseTrace regs p) :
    ∃ i vs, ev = Event.releaseEv i vs := by
  simp only [releaseTrace, List.mem_filterMap] at h
  obtain ⟨e, _, hmap⟩ := h
  obtain ⟨vs, _, hev⟩ := Option.map_eq_some'.mp hmap
  exact ⟨e.id, vs, hev.symm⟩

/-! ### Decomposition lemmas for the barrier and the resolution pass -/

lemma parse_fst {V : Type} (fs : FlagSet) (args : Arguments)
    (es : List (Entry V)) :
    (parse fs args es).1 =
      callTrace es ++ (if fs.parsedFlag then [] else [Event.parseActionEv]) := by
  by_cases hb : fs.parsedFlag
  · simp [parse, hb]
  · cases hp : fs.parseRes args <;> simp [parse, hb, hp]

lemma parse_snd_ok {V : Type} (fs : FlagSet) (args : Arguments)
    (es : List (Entry V))
    (hsucc : fs.parsedFlag = true ∨ fs.parseRes args = none) :
    (parse fs args es).2 = Except.ok ⟨runEntries es⟩ := by
  rcases hsucc with hb | hp
  · simp [parse, hb]
  · by_cases hb : fs.parsedFlag
    · simp [parse, hb]
    · simp [parse, hb, hp]

lemma parse_snd_err {V : Type} (fs : FlagSet) (args : Arguments)
    (es : List (Entry V)) (msg : String)
    (hb : fs.parsedFlag = false) (hp : fs.parseRes args = some msg) :
    (parse fs args es).2 = Except.error msg := by
  simp [parse, hb, hp]

lemma resolve_ok {V : Type} (fs : FlagSet) (args : Arguments)
    (regs : List (Reg V))
    (hsucc : fs.parsedFlag = true ∨ fs.parseRes args = none) :
    resolveTrace fs args regs =
        captureTrace regs ++ parseTraceOf fs args regs ++
          releaseTrace regs ⟨runEntries (captureEntries regs)⟩
      ∧ resolveResult fs args regs =
          Except.ok (releaseOutputs regs ⟨runEntries (captureEntries regs)⟩) := by
  have h2 := parse_snd_ok fs args (captureEntries regs) hsucc
  unfold resolveTrace resolveResult resolve parseTraceOf
  rcases hpair : parse fs args (captureEntries regs) with ⟨ptr, pres⟩
  rw [hpair] at h2
  cases pres with
  | error e => simp at h2
  | ok p =>
      simp only at h2
      cases h2
      exact ⟨rfl, rfl⟩

lemma resolve_err {V : Type} (fs : FlagSet) (args : Arguments)
    (regs : List (Reg V)) (msg : String)
    (hb : fs.parsedFlag = false) (hp : fs.parseRes args = some msg) :
    resolveTrace fs args regs = captureTrace regs ++ parseTraceOf fs args regs
      ∧ resolveResult fs args regs = Except.error msg := by
  have h2 := parse_snd_err fs args (captureEntries regs) msg hb hp
  unfold resolveTrace resolveResult resolve parseTraceOf
  rcases hpair : parse fs args (captureEntries regs) with ⟨ptr, pres⟩
  rw [hpair] at h2
  cases pres with
  | error e =>
      simp only [Except.error.injEq] at h2
      cases h2
      exact ⟨rfl, rfl⟩
  | ok p => simp at h2

lemma releaseOutputs_get? {V : Type} (regs : List (Reg V)) (p : Parsed V)
    (i : Nat) (r : Reg V) (h : regs.get? i = some r) :
    (releaseOutputs regs p).get? i =
      some (fn2call r.ctor i [RVal.parsedVal p]) := by
  have hget := captureEntriesFrom_get? regs 0 i r h
  simp only [Nat.zero_add] at hget
  simp only [releaseOutputs, captureEntries]
  rw [List.get?_map, hget]
  rfl

lemma fn2call_parsedVal {V : Type} (c : Ctor V) (i : Nat) (p : Parsed V) :
    fn2call c i [RVal.parsedVal p] =
      if ((p.lookup i).getD []).length = c.outTys.length
      then some ((p.lookup i).getD []) else none := rfl

lemma captureTrace_mem {V : Type} (regs : List (Reg V)) :
    ∀ (n k : Nat) (r : Reg V), regs.get? k = some r →
      Event.captureEv (n + k) r.deps ∈ captureTraceFrom n regs := by
  induction regs with
  | nil => intro n k r h; simp at h
  | cons r0 rs ih =>
      intro n k r h
      cases k with
      | zero =>
          simp only [List.get?] at h
          cases h
          simp [captureTraceFrom, fn1run]
      | succ k =>
          have hk : rs.get? k = some r := h
          have harith : n + (k + 1) = (n + 1) + k := by omega
          have hmem := ih (n + 1) k r hk
          rw [harith]
          simp only [captureTraceFrom, fn1run, List.singleton_append,
            List.mem_cons]
          exact Or.inr hmem

lemma resolveTrace_decomp {V : Type} (fs : FlagSet) (args : Arguments)
    (regs : List (Reg V)) :
    ∃ tail, resolveTrace fs args regs =
        captureTrace regs ++ parseTraceOf fs args regs ++ tail
      ∧ ∀ ev ∈ tail, ∃ j vs, ev = Event.releaseEv j vs := by
  unfold resolveTrace resolve parseTraceOf
  rcases hpair : parse fs args (captureEntries regs) with ⟨ptr, pres⟩
  cases pres with
  | error e => exact ⟨[], by simp, by simp⟩
  | ok p =>
      exact ⟨releaseTrace regs p, by simp [List.append_assoc],
        fun ev hmem => mem_releaseTrace regs p ev hmem⟩

lemma resolveOutput_char {V : Type} (fs : FlagSet) (args : Arguments)
    (regs : List (Reg V)) (i : Nat) (r : Reg V) (hr : regs.get? i = some r) :
    resolveOutput fs args regs i =
      if fs.parsedFlag = true ∨ fs.parseRes args = none then
        some (if (r.ctor.body r.deps).length = r.ctor.outTys.length
              then some (r.ctor.body r.deps) else none)
      else none := by
  by_cases hsucc : fs.parsedFlag = true ∨ fs.parseRes args = none
  · obtain ⟨-, hres⟩ := resolve_ok fs args regs hsucc
    rw [if_pos hsucc]
    rw [resolveOutput, hres]
    simp only
    rw [releaseOutputs_get? regs _ i r hr, fn2call_parsedVal]
    have hlook :
        Parsed.lookup ⟨runEntries (captureEntries regs)⟩ i =
          some (r.ctor.body r.deps) := by
      have := lookup_runEntries regs 0 i r hr
      simpa [Parsed.lookup, captureEntries] using this
    rw [hlook]
    rfl
  · push_neg at hsucc
    obtain ⟨hb, hp⟩ := hsucc
    have hb' : fs.parsedFlag = false := by
      cases hflag : fs.parsedFlag
      · rfl
      · exact absurd hflag hb
    obtain ⟨msg, hmsg⟩ := Option.ne_none_iff_exists'.mp hp
    obtain ⟨-, hres⟩ := resolve_err fs args regs msg hb' hmsg
    rw [if_neg (by push_neg; exact ⟨hb, hp⟩)]
    rw [resolveOutput, hres]

/-! ### Structural lemmas about Provide -/

lemma provideLoop_append_funcs {V : Type} (pre : List (AnyVal V)) :
    ∀ (n : Nat) (rest : List (AnyVal V)),
      (∀ a ∈ pre, ∃ c, a = AnyVal.func c) →
      provideLoop n (pre ++ rest) =
        provideLoop n pre ++ provideLoop (n + pre.length) rest := by
  induction pre with
  | nil => intro n rest _; simp [provideLoop]
  | cons a pre ih =>
      intro n rest h
      obtain ⟨c, rfl⟩ := h a (List.mem_cons_self a pre)
      have harith : n + (pre.length + 1) = (n + 1) + pre.length := by omega
      have htail := ih (n + 1) rest (fun a ha => h a (List.mem_cons_of_mem _ ha))
      simp only [List.cons_append, provideLoop, List.append_eq,
        List.length_cons, harith, htail]

lemma mem_provideLoop_funcs {V : Type} (pre : List (AnyVal V)) :
    ∀ (n : Nat) (opt : FxOpt V),
      (∀ a ∈ pre, ∃ c, a = AnyVal.func c) →
      opt ∈ provideLoop n pre →
      ∃ k c, pre.get? k = some (AnyVal.func c) ∧
        opt = FxOpt.fxProvide (n + k) c := by
  induction pre with
  | nil => intro n opt _ hmem; simp [provideLoop] at hmem
  | cons a pre ih =>
      intro n opt h hmem
      obtain ⟨c, rfl⟩ := h a (List.mem_cons_self a pre)
      simp only [provideLoop, List.mem_cons] at hmem
      rcases hmem with hmem | hmem
      · exact ⟨0, c, rfl, by simpa using hmem⟩
      · obtain ⟨k, c', hk, hopt⟩ :=
          ih (n + 1) opt (fun a ha => h a (List.mem_cons_of_mem _ ha)) hmem
        have harith : (n + 1) + k = n + (k + 1) := by omega
        exact ⟨k + 1, c', hk, by simpa [harith] using hopt⟩

lemma provideLoop_length_funcs {V : Type} (pre : List (AnyVal V)) :
    ∀ (n : Nat), (∀ a ∈ pre, ∃ c, a = AnyVal.func c) →
      (provideLoop n pre).length = pre.length := by
  induction pre with
  | nil => intro n _; rfl
  | cons a pre ih =>
      intro n h
      obtain ⟨c, rfl⟩ := h a (List.mem_cons_self a pre)
      simp only [provideLoop, List.length_cons]
      rw [ih (n + 1) (fun a ha => h a (List.mem_cons_of_mem _ ha))]

lemma provideLoop_funcs_get? {V : Type} (pre : List (AnyVal V)) :
    ∀ (n k : Nat) (c : Ctor V),
      (∀ a ∈ pre, ∃ c0, a = AnyVal.func c0) →
      pre.get? k = some (AnyVal.func c) →
      (provideLoop n pre).get? k = some (FxOpt.fxProvide (n + k) c) := by
  induction pre with
  | nil => intro n k c _ h; simp at h
  | cons a pre ih =>
      intro n k c hall h
      obtain ⟨c0, rfl⟩ := hall a (List.mem_cons_self a pre)
      cases k with
      | zero =>
          simp only [List.get?] at h
          cases h
          rfl
      | succ k =>
          have hk : pre.get? k = some (AnyVal.func c) := h
          have harith : n + (k + 1) = (n + 1) + k := by omega
          have hrec := ih (n + 1) k c
            (fun a ha => hall a (List.mem_cons_of_mem _ ha)) hk
          simpa [provideLoop, harith] using hrec

/-! ### Claim theorems -/

/-- C1: for every set of registered constructors, each original constructor
body executes exactly once per resolution pass, only inside the barrier's
`parse` function — never in the Capture-stage wrapper `fn1` and never in
the Release-stage wrapper `fn2` — and only with the arguments its Capture
stage stored into the entry's `args` slot.  Formally: registration `i`'s
constructor-call event occurs exactly once in the barrier's trace, its
Capture event precedes the barrier segment in the full resolution trace,
every call event for `i` carries exactly the captured dependencies, the
Capture segment contains no constructor-call event, and the segment after
the barrier (the Release phase) contains none either. -/
theorem ctor_runs_once_in_barrier {V : Type} [DecidableEq V] (fs : FlagSet)
    (args : Arguments) (regs : List (Reg V)) (i : Nat) (r : Reg V)
    (hr : regs.get? i = some r) :
    (parseTraceOf fs args regs).count (Event.callCtorEv i r.deps) = 1
    ∧ Event.captureEv i r.deps ∈ captureTrace regs
    ∧ (∀ a : List V, Event.callCtorEv i a ∈ resolveTrace fs args regs →
        a = r.deps)
    ∧ (∀ (j : Nat) (a : List V), Event.callCtorEv j a ∉ captureTrace regs)
    ∧ (∃ tail, resolveTrace fs args regs =
          captureTrace regs ++ parseTraceOf fs args regs ++ tail
        ∧ ∀ (j : Nat) (a : List V), Event.callCtorEv j a ∉ tail) := by
  obtain ⟨tail, hdecomp, htail⟩ := resolveTrace_decomp fs args regs
  have hnocap : ∀ (j : Nat) (a : List V),
      Event.callCtorEv j a ∉ captureTrace regs := by
    intro j a hmem
    obtain ⟨k, r', _, hev⟩ := mem_captureTraceFrom regs 0 _ hmem
    exact Event.noConfusion hev
  have hnotail : ∀ (j : Nat) (a : List V), Event.callCtorEv j a ∉ tail := by
    intro j a hmem
    obtain ⟨j', vs, hev⟩ := htail _ hmem
    exact Event.noConfusion hev
  refine ⟨?_, ?_, ?_, hnocap, tail, hdecomp, hnotail⟩
  · rw [parseTraceOf, parse_fst, List.count_append]
    have hcall : (callTrace (captureEntries regs)).count
        (Event.callCtorEv i r.deps) = 1 := by
      have h0 := callTrace_count_one regs 0 i r hr
      rw [Nat.zero_add] at h0
      exact h0
    have hrest : (if fs.parsedFlag then ([] : List (Event V))
        else [Event.parseActionEv]).count (Event.callCtorEv i r.deps) = 0 := by
      by_cases hb : fs.parsedFlag <;> simp [hb]
    omega
  · have := captureTrace_mem regs 0 i r hr
    rw [Nat.zero_add] at this
    exact this
  · intro a hmem
    rw [hdecomp] at hmem
    rcases List.mem_append.mp hmem with hmem | hmem
    · rcases List.mem_append.mp hmem with hmem | hmem
      · exact absurd hmem (hnocap i a)
      · rw [parseTraceOf, parse_fst] at hmem
        rcases List.mem_append.mp hmem with hmem | hmem
        · obtain ⟨k, r', hk, hev⟩ :=
            mem_callTrace_captureEntriesFrom regs 0 _ hmem
          rw [Nat.zero_add] at hev
          injection hev with h1 h2
          subst h1
          rw [hr] at hk
          cases hk
          exact h2
        · by_cases hb : fs.parsedFlag <;> simp [hb] at hmem
    · exact absurd hmem (hnotail i a)

/-- C2: for every entry whose constructor captured arguments `deps`, the
values its Release-stage `fn2` returns out of a successful barrier run
equal, element for element, what directly calling the original constructor
with those arguments produces. -/
theorem release_roundtrip {V : Type} (fs : FlagSet) (args : Arguments)
    (regs : List (Reg V)) (i : Nat) (r : Reg V)
    (hr : regs.get? i = some r)
    (hsucc : fs.parsedFlag = true ∨ fs.parseRes args = none)
    (hwf : (r.ctor.body r.deps).length = r.ctor.outTys.length) :
    ∃ outs, resolveResult fs args regs = Except.ok outs
      ∧ outs.get? i = some (some (r.ctor.body r.deps)) := by
  obtain ⟨-, hres⟩ := resolve_ok fs args regs hsucc
  refine ⟨_, hres, ?_⟩
  rw [releaseOutputs_get? regs _ i r hr, fn2call_parsedVal]
  have hlook :
      Parsed.lookup ⟨runEntries (captureEntries regs)⟩ i =
        some (r.ctor.body r.deps) := by
    have := lookup_runEntries regs 0 i r hr
    simpa [Parsed.lookup, captureEntries] using this
  rw [hlook]
  simp [hwf]

/-- C3: in any single resolution pass, the barrier invokes the serialized
action (`fs.Parse` on the payload) at most once, regardless of how many
constructors were registered. -/
theorem action_at_most_once {V : Type} [DecidableEq V] (fs : FlagSet)
    (args : Arguments) (regs : List (Reg V)) :
    (resolveTrace fs args regs).count (Event.parseActionEv : Event V) ≤ 1 := by
  obtain ⟨tail, hdecomp, htail⟩ := resolveTrace_decomp fs args regs
  rw [hdecomp, List.count_append, List.count_append]
  have hcap : (captureTrace regs).count (Event.parseActionEv : Event V) = 0 := by
    refine List.count_eq_zero.mpr fun hmem => ?_
    obtain ⟨k, r, _, hev⟩ := mem_captureTraceFrom regs 0 _ hmem
    exact Event.noConfusion hev
  have htail0 : tail.count (Event.parseActionEv : Event V) = 0 := by
    refine List.count_eq_zero.mpr fun hmem => ?_
    obtain ⟨j, vs, hev⟩ := htail _ hmem
    exact Event.noConfusion hev
  have hparse : (parseTraceOf fs args regs).count
      (Event.parseActionEv : Event V) ≤ 1 := by
    rw [parseTraceOf, parse_fst, List.count_append]
    have hcall : (callTrace (captureEntries regs)).count
        (Event.parseActionEv : Event V) = 0 := by
      refine List.count_eq_zero.mpr fun hmem => ?_
      obtain ⟨k, r, _, hev⟩ := mem_callTrace_captureEntriesFrom regs 0 _ hmem
      exact Event.noConfusion hev
    by_cases hb : fs.parsedFlag <;> simp [hb, hcall]
  omega

/-- C4: if the serialized action fails — `fs.Parse` returns an error on the
payload — the barrier returns that error and no `parsed` result, and no
Release stage of any entry returns values to its dependents: the resolution
trace contains no release event at all. -/
theorem action_failure_blocks_release {V : Type} (fs : FlagSet)
    (args : Arguments) (regs : List (Reg V)) (msg : String)
    (hb : fs.parsedFlag = false) (hp : fs.parseRes args = some msg) :
    resolveResult fs args regs = Except.error msg
    ∧ ∀ (j : Nat) (vs : List V),
        Event.releaseEv j vs ∉ resolveTrace fs args regs := by
  obtain ⟨htr, hres⟩ := resolve_err fs args regs msg hb hp
  refine ⟨hres, fun j vs hmem => ?_⟩
  rw [htr] at hmem
  rcases List.mem_append.mp hmem with h | h
  · obtain ⟨k, r, _, hev⟩ := mem_captureTraceFrom regs 0 _ h
    exact Event.noConfusion hev
  · rw [parseTraceOf, parse_fst] at h
    rcases List.mem_append.mp h with h | h
    · obtain ⟨k, r, _, hev⟩ := mem_callTrace_captureEntriesFrom regs 0 _ h
      exact Event.noConfusion hev
    · rw [hb] at h
      simp at h

/-- C5: if the flag set already reports `Parsed() == true`, the barrier
does not invoke `fs.Parse` again — no action event appears anywhere in the
resolution trace — but it still calls every registered entry's constructor
with its captured arguments and returns a `parsed` result mapping every
entry to its outputs. -/
theorem already_parsed_skips_action {V : Type} (fs : FlagSet)
    (args : Arguments) (regs : List (Reg V)) (hp : fs.parsedFlag = true) :
    (Event.parseActionEv : Event V) ∉ resolveTrace fs args regs
    ∧ ∃ p, (parse fs args (captureEntries regs)).2 = Except.ok p
        ∧ ∀ (i : Nat) (r : Reg V), regs.get? i = some r →
            Event.callCtorEv i r.deps ∈ resolveTrace fs args regs
          ∧ p.lookup i = some (r.ctor.body r.deps) := by
  obtain ⟨tail, hdecomp, htail⟩ := resolveTrace_decomp fs args regs
  constructor
  · intro hmem
    rw [hdecomp] at hmem
    rcases List.mem_append.mp hmem with h | h
    · rcases List.mem_append.mp h with h | h
      · obtain ⟨k, r, _, hev⟩ := mem_captureTraceFrom regs 0 _ h
        exact Event.noConfusion hev
      · rw [parseTraceOf, parse_fst] at h
        rcases List.mem_append.mp h with h | h
        · obtain ⟨k, r, _, hev⟩ :=
            mem_callTrace_captureEntriesFrom regs 0 _ h
          exact Event.noConfusion hev
        · rw [hp] at h
          simp at h
    · obtain ⟨j, vs, hev⟩ := htail _ h
      exact Event.noConfusion hev
  · refine ⟨⟨runEntries (captureEntries regs)⟩,
      parse_snd_ok fs args _ (Or.inl hp), fun i r hr => ?_⟩
    constructor
    · have hmem := callTrace_mem regs 0 i r hr
      rw [Nat.zero_add] at hmem
      rw [hdecomp]
      refine List.mem_append.mpr (Or.inl (List.mem_append.mpr (Or.inr ?_)))
      rw [parseTraceOf, parse_fst]
      exact List.mem_append.mpr (Or.inl hmem)
    · have := lookup_runEntries regs 0 i r hr
      simpa [Parsed.lookup, captureEntries] using this

/-- C6: a value that is not a function, passed to `Provide` among its
constructors, yields the configuration-class `fx.Error` option in the
returned option list, and no Capture-stage or Release-stage provider is
synthesized for it: every provider in the returned options stems from a
function that precedes the non-function value. -/
theorem provide_nonfunction_error {V : Type} (pre post : List (AnyVal V))
    (v : V) (hpre : ∀ a ∈ pre, ∃ c, a = AnyVal.func c) :
    FxOpt.fxError provideErrMsg ∈ Provide (pre ++ AnyVal.nonFunc v :: post)
    ∧ ∀ opt ∈ Provide (pre ++ AnyVal.nonFunc v :: post),
        ∀ (i : Nat) (c : Ctor V), opt = FxOpt.fxProvide i c →
          pre.get? i = some (AnyVal.func c) := by
  have heq : Provide (pre ++ AnyVal.nonFunc v :: post) =
      provideLoop 0 pre ++ [FxOpt.fxError provideErrMsg] := by
    rw [Provide, provideLoop_append_funcs pre 0 _ hpre]
    rfl
  constructor
  · rw [heq]
    exact List.mem_append.mpr (Or.inr (List.mem_singleton.mpr rfl))
  · intro opt hopt i c hform
    rw [heq] at hopt
    rcases List.mem_append.mp hopt with h | h
    · obtain ⟨k, c', hk, hopt'⟩ := mem_provideLoop_funcs pre 0 opt hpre h
      rw [hform] at hopt'
      injection hopt' with h1 h2
      rw [Nat.zero_add] at h1
      subst h1
      rw [hk, h2]
    · rw [List.mem_singleton.mp h] at hform
      exact FxOpt.noConfusion hform

/-- C7 as amended: the synthesized Capture-stage function `fn1` has the
same input types as the original constructor and exactly one output, the
group-tagged result — but it is always synthesized non-variadic
(`reflect.FuncOf(in, resultTypes, false)`), even when the original
constructor is variadic; its only effect is storing the received inputs
into the entry's `args` slot, and it never runs the original constructor
body. -/
theorem fn1_shape {V : Type} (c : Ctor V) (i : Nat) (a : List V) :
    fn1Sig c = ⟨c.inTys, [Ty.resultTy], false⟩
    ∧ (fn1run i c a).1 = ⟨i, c, a⟩
    ∧ (∀ (j : Nat) (b : List V), Event.callCtorEv j b ∉ (fn1run i c a).2)
    ∧ (∀ ev ∈ (fn1run i c a).2, ev = Event.captureEv i a) := by
  refine ⟨rfl, rfl, ?_, ?_⟩
  · intro j b hmem
    simp [fn1run] at hmem
  · intro ev hmem
    simpa [fn1run] using hmem

/-- C7, counterexample to the claim as stated: for a variadic constructor
the synthesized `fn1` does not have the same input signature as the
original — `Provide` hard-codes `variadic = false` in
`reflect.FuncOf(in, resultTypes, false)`, so the spec-described signature
(which keeps the variadic bit) differs from the synthesized one. -/
theorem fn1_variadic_counterexample :
    fn1Sig variadicCtor ≠ fn1SigSpec variadicCtor := by decide

/-- C8 as amended: the Release-stage closure `fn2` looks its entry up in
the `parsed` map it receives, but performs no absence check of its own:
when the entry is absent the Go map lookup yields the zero value (no
output values) and the closure returns it.  The synthesized function then
panics — through `reflect.MakeFunc`'s result-count check, not through a
check in `fn2` — exactly when the original constructor has at least one
output; for a constructor with no outputs the absence passes silently. -/
theorem fn2_absent_zero_value {V : Type} (c : Ctor V) (i : Nat)
    (p : Parsed V) (habs : p.lookup i = none) :
    fn2closure i [RVal.parsedVal p] = some ([] : List V)
    ∧ (c.outTys = [] → fn2call c i [RVal.parsedVal p] = some [])
    ∧ (c.outTys ≠ [] → fn2call c i [RVal.parsedVal p] = none) := by
  have h1 : fn2closure i [RVal.parsedVal p] = some ([] : List V) := by
    simp [fn2closure, habs]
  refine ⟨h1, ?_, ?_⟩
  · intro hout
    rw [fn2call_parsedVal, habs, hout]
    rfl
  · intro hout
    rw [fn2call_parsedVal, habs]
    have : (0 : Nat) ≠ c.outTys.length := by
      intro hcontra
      exact hout (List.length_eq_zero.mp hcontra.symm)
    simp [this]

/-- C8, counterexample to the claim as stated: for a constructor with no
outputs whose entry is absent from the `parsed` map, the Release stage
does not abort — it silently returns (no values), contradicting "never a
silently returned value". -/
theorem fn2_absent_silent_counterexample :
    emptyParsed.lookup 0 = none
    ∧ fn2call zeroOutCtor 0 [RVal.parsedVal emptyParsed] = some [] :=
  ⟨rfl, rfl⟩

/-- C9: registering two permuted lists of mutually independent constructors
yields the same Release-stage output for every constructor — the output
delivered for a registration depends only on that registration's
constructor and captured dependencies, not on its position or on the other
registrations. -/
theorem order_independence {V : Type} (fs : FlagSet) (args : Arguments)
    (l l' : List (Reg V)) (hperm : l.Perm l') (i j : Nat) (r : Reg V)
    (hi : l.get? i = some r) (hj : l'.get? j = some r) :
    resolveOutput fs args l i = resolveOutput fs args l' j := by
  rw [resolveOutput_char fs args l i r hi,
    resolveOutput_char fs args l' j r hj]

/-- C10: when `Provide` receives several constructors and one is not a
function, its loop stops at the first non-function value: the options
returned are exactly the providers synthesized for the constructors before
it, followed by the single `fx.Error` option — constructors after the
non-function value are silently dropped. -/
theorem provide_stops_at_first_nonfunction {V : Type}
    (pre post : List (AnyVal V)) (v : V)
    (hpre : ∀ a ∈ pre, ∃ c, a = AnyVal.func c) :
    Provide (pre ++ AnyVal.nonFunc v :: post) =
      Provide pre ++ [FxOpt.fxError provideErrMsg]
    ∧ ∀ (k : Nat) (c : Ctor V), pre.get? k = some (AnyVal.func c) →
        (Provide (pre ++ AnyVal.nonFunc v :: post)).get? k =
          some (FxOpt.fxProvide k c) := by
  have heq : Provide (pre ++ AnyVal.nonFunc v :: post) =
      Provide pre ++ [FxOpt.fxError provideErrMsg] := by
    rw [Provide, provideLoop_append_funcs pre 0 _ hpre]
    rfl
  refine ⟨heq, fun k c hk => ?_⟩
  rw [heq]
  have hlen : k < (Provide pre).length := by
    rw [Provide, provideLoop_length_funcs pre 0 hpre]
    exact List.get?_eq_some.mp hk |>.1
  rw [List.get?_append hlen, Provide, provideLoop_funcs_get? pre 0 k c hpre hk,
    Nat.zero_add]

/-! ### Witnesses -/

/-- Witness for C1 at a concrete flag set, payload and registration. -/
theorem ctor_runs_once_in_barrier_witness :
    ([regA].get? 0 = some regA)
    ∧ ((parseTraceOf natFlagSet natArgs [regA]).count
          (Event.callCtorEv 0 regA.deps) = 1
      ∧ Event.captureEv 0 regA.deps ∈ captureTrace [regA]
      ∧ (∀ a : List Nat,
          Event.callCtorEv 0 a ∈ resolveTrace natFlagSet natArgs [regA] →
            a = regA.deps)
      ∧ (∀ (j : Nat) (a : List Nat),
          Event.callCtorEv j a ∉ captureTrace [regA])
      ∧ (∃ tail, resolveTrace natFlagSet natArgs [regA] =
            captureTrace [regA] ++ parseTraceOf natFlagSet natArgs [regA] ++
              tail
          ∧ ∀ (j : Nat) (a : List Nat), Event.callCtorEv j a ∉ tail)) :=
  ⟨rfl, ctor_runs_once_in_barrier natFlagSet natArgs [regA] 0 regA rfl⟩

/-- Witness for C2 at a concrete flag set, payload and registration. -/
theorem release_roundtrip_witness :
    ([regA].get? 0 = some regA)
    ∧ (natFlagSet.parsedFlag = true ∨ natFlagSet.parseRes natArgs = none)
    ∧ (regA.ctor.body regA.deps).length = regA.ctor.outTys.length
    ∧ ∃ outs, resolveResult natFlagSet natArgs [regA] = Except.ok outs
        ∧ outs.get? 0 = some (some (regA.ctor.body regA.deps)) :=
  ⟨rfl, Or.inr rfl, rfl,
    release_roundtrip natFlagSet natArgs [regA] 0 regA rfl (Or.inr rfl) rfl⟩

/-- Witness for C4: a failing flag set aborts the barrier and suppresses
every Release stage. -/
theorem action_failure_blocks_release_witness :
    (natFlagSetErr.parsedFlag = false)
    ∧ (natFlagSetErr.parseRes natArgs = some "flag provided but not defined")
    ∧ (resolveResult natFlagSetErr natArgs [regA] =
        Except.error "flag provided but not defined"
      ∧ ∀ (j : Nat) (vs : List Nat),
          Event.releaseEv j vs ∉ resolveTrace natFlagSetErr natArgs [regA]) :=
  ⟨rfl, rfl,
    action_failure_blocks_release natFlagSetErr natArgs [regA] _ rfl rfl⟩

/-- Witness for C5: an already-parsed flag set skips the action but still
runs the registered constructor. -/
theorem already_parsed_skips_action_witness :
    (natFlagSetParsed.parsedFlag = true)
    ∧ ((Event.parseActionEv : Event Nat) ∉
          resolveTrace natFlagSetParsed natArgs [regB]
      ∧ ∃ p, (parse natFlagSetParsed natArgs (captureEntries [regB])).2 =
            Except.ok p
          ∧ ∀ (i : Nat) (r : Reg Nat), [regB].get? i = some r →
              Event.callCtorEv i r.deps ∈
                resolveTrace natFlagSetParsed natArgs [regB]
            ∧ p.lookup i = some (r.ctor.body r.deps)) :=
  ⟨rfl, already_parsed_skips_action natFlagSetParsed natArgs [regB] rfl⟩

/-- Witness for C6: providing a function, then the integer 5, then another
function yields the error option and providers only for the prefix. -/
theorem provide_nonfunction_error_witness :
    (∀ a ∈ [AnyVal.func regA.ctor], ∃ c, a = AnyVal.func c)
    ∧ (FxOpt.fxError provideErrMsg ∈
        Provide ([AnyVal.func regA.ctor] ++
          AnyVal.nonFunc 5 :: [AnyVal.func regB.ctor])
      ∧ ∀ opt ∈ Provide ([AnyVal.func regA.ctor] ++
            AnyVal.nonFunc 5 :: [AnyVal.func regB.ctor]),
          ∀ (i : Nat) (c : Ctor Nat), opt = FxOpt.fxProvide i c →
            [AnyVal.func regA.ctor].get? i = some (AnyVal.func c)) :=
  ⟨fun a ha => ⟨regA.ctor, List.mem_singleton.mp ha⟩,
    provide_nonfunction_error [AnyVal.func regA.ctor] [AnyVal.func regB.ctor]
      5 (fun a ha => ⟨regA.ctor, List.mem_singleton.mp ha⟩)⟩

/-- Witness for C8 (amended): a one-output constructor whose entry is
absent from the `parsed` map makes the synthesized Release stage panic. -/
theorem fn2_absent_zero_value_witness :
    (emptyParsed.lookup 0 = none)
    ∧ (fn2closure 0 [RVal.parsedVal emptyParsed] = some ([] : List Nat)
      ∧ (oneOutCtor.outTys = [] →
          fn2call oneOutCtor 0 [RVal.parsedVal emptyParsed] = some [])
      ∧ (oneOutCtor.outTys ≠ [] →
          fn2call oneOutCtor 0 [RVal.parsedVal emptyParsed] = none)) :=
  ⟨rfl, fn2_absent_zero_value oneOutCtor 0 emptyParsed rfl⟩

/-- Witness for C9: the two-constructor lists `[regA, regB]` and
`[regB, regA]` are permutations of each other and deliver the same output
for `regA`. -/
theorem order_independence_witness :
    ([regA, regB].Perm [regB, regA])
    ∧ ([regA, regB].get? 0 = some regA)
    ∧ ([regB, regA].get? 1 = some regA)
    ∧ resolveOutput natFlagSet natArgs [regA, regB] 0 =
        resolveOutput natFlagSet natArgs [regB, regA] 1 :=
  ⟨List.Perm.swap regB regA [], rfl, rfl,
    order_independence natFlagSet natArgs [regA, regB] [regB, regA]
      (List.Perm.swap regB regA []) 0 1 regA rfl rfl⟩

/-- Witness for C10: two functions followed by the integer 9 — the two
providers survive, the error option is appended, nothing follows. -/
theorem provide_stops_at_first_nonfunction_witness :
    (∀ a ∈ [AnyVal.func regA.ctor, AnyVal.func regB.ctor],
        ∃ c, a = AnyVal.func c)
    ∧ (Provide ([AnyVal.func regA.ctor, AnyVal.func regB.ctor] ++
          AnyVal.nonFunc 9 :: []) =
        Provide [AnyVal.func regA.ctor, AnyVal.func regB.ctor] ++
          [FxOpt.fxError provideErrMsg]
      ∧ ∀ (k : Nat) (c : Ctor Nat),
          [AnyVal.func regA.ctor, AnyVal.func regB.ctor].get? k =
            some (AnyVal.func c) →
          (Provide ([AnyVal.func regA.ctor, AnyVal.func regB.ctor] ++
              AnyVal.nonFunc 9 :: [])).get? k =
            some (FxOpt.fxProvide k c)) := by
  have hpre : ∀ a ∈ [AnyVal.func regA.ctor, AnyVal.func regB.ctor],
      ∃ c, a = AnyVal.func c := by
    intro a ha
    rcases List.mem_cons.mp ha with h | h
    · exact ⟨regA.ctor, h⟩
    · exact ⟨regB.ctor, List.mem_singleton.mp h⟩
  exact ⟨hpre, provide_stops_at_first_nonfunction
    [AnyVal.func regA.ctor, AnyVal.func regB.ctor] [] 9 hpre⟩

end Flagfx
